import Mathlib

/-!
Shallow embedding of `src/distributed/tcp_blocking.py`: a blocking TCP
framing layer (`send_all`, `recv_all`, `TCPServer`, `TCPClient`) that
delimits messages on a byte stream with a fixed-width big-endian length
prefix, plus the theorems settling the spec's claims about it.

Bytes are modelled as `Nat` (every byte the code produces is `< 256`).
A connected socket is modelled as a `Conn` record: `rx` holds the bytes
that will arrive before the peer closes (EOF afterwards), `frag` is a
fragmentation schedule controlling how the transport chops incoming
bytes into `recv` chunks, `txAccept` is an acceptance schedule for
`send` (with `[]` meaning the transport accepts everything offered),
`tx` accumulates the bytes the transport has accepted so far, and
`closed` records a local `close()`.  Python exception kinds are mapped
to the `Err` inductive: `RuntimeError("Socket connection broken ...")`
to `connectionBroken`, `OverflowError` from `int.to_bytes` to
`messageTooLarge`, `OSError` on an operation over a closed socket
descriptor to `channelClosed`, `OSError` from `bind` on an
already-bound socket to `bindError`, and the `AttributeError` from
using `self.conn` while it is still `None` to `noneConn`.
-/

inductive Err where
  | connectionBroken
  | messageTooLarge
  | channelClosed
  | bindError
  | noneConn
  deriving DecidableEq

structure Conn where
  rx : List Nat
  frag : List Nat
  txAccept : List Nat
  tx : List Nat
  closed : Bool
  deriving DecidableEq

/-- Number of bytes an underlying non-EOF `recv` call takes off the wire:
at most the requested `k`, further capped by the head of the fragmentation
schedule, clamped to at least 1 byte because a blocking `recv` returns zero
bytes only at EOF. -/
def sockAmt (c : Conn) (k : Nat) : Nat :=
  min k (match c.frag with
    | [] => k
    | f :: _ => max f 1)

/-- One underlying `sock.recv(k)` call: on a locally closed socket the OS
fails; otherwise a blocking `recv` delivers the next `sockAmt c k` bytes
still in flight, which is exactly `[]` once `rx` is exhausted (peer
closed). -/
def sockRecv (c : Conn) (k : Nat) : Except (Err × Conn) (List Nat × Conn) :=
  if c.closed then .error (.channelClosed, c)
  else
    .ok (c.rx.take (sockAmt c k),
      { c with rx := c.rx.drop (sockAmt c k), frag := c.frag.tail })

/-- One underlying `sock.send(buf)` call: on a locally closed socket the OS
fails; otherwise the transport accepts `min(schedule head, len(buf))` bytes
(everything when the schedule is exhausted) and reports the count. -/
def sockSend (c : Conn) (buf : List Nat) : Except (Err × Conn) (Nat × Conn) :=
  if c.closed then .error (.channelClosed, c)
  else
    let acc := match c.txAccept with
      | [] => buf.length
      | a :: _ => min a buf.length
    .ok (acc, { c with tx := c.tx ++ buf.take acc, txAccept := c.txAccept.tail })

/-- Loop body of `send_all` (tcp_blocking.py lines 18-26): while
`total_sent < length`, call `sock.send(data[total_sent:])`, raise
`RuntimeError` on a zero-byte send, else advance.  `fuel` only bounds the
recursion; every continuing iteration sends at least one byte, so
`fuel = data.length` never runs out (the fuel-0 branch is unreachable from
`sendAll`). -/
def sendAllGo (fuel : Nat) (c : Conn) (data : List Nat) (totalSent : Nat) :
    Except (Err × Conn) Conn :=
  if totalSent < data.length then
    match fuel with
    | 0 => .error (.connectionBroken, c)
    | fuel + 1 =>
      match sockSend c (data.drop totalSent) with
      | .error e => .error e
      | .ok (sent, c') =>
        if sent = 0 then .error (.connectionBroken, c')
        else sendAllGo fuel c' data (totalSent + sent)
  else .ok c

/-- `send_all(sock, data)`: blockingly send the whole buffer. -/
def sendAll (c : Conn) (data : List Nat) : Except (Err × Conn) Conn :=
  sendAllGo data.length c data 0

/-- Loop body of `recv_all` (tcp_blocking.py lines 29-39), instrumented with
a trace of the underlying calls: while `bytes_recd < size`, call
`sock.recv(min(size - bytes_recd, 2048))`, raise `RuntimeError` on an empty
chunk, else append the chunk.  Each trace entry records (requested bytes,
delivered chunk).  `fuel` only bounds the recursion; every continuing
iteration delivers at least one byte, so `fuel = size` never runs out. -/
def recvAllGo (fuel : Nat) (c : Conn) (size recd : Nat) (acc : List Nat)
    (trace : List (Nat × List Nat)) :
    Except (Err × Conn) (List Nat × Conn × List (Nat × List Nat)) :=
  if recd < size then
    match fuel with
    | 0 => .error (.connectionBroken, c)
    | fuel + 1 =>
      match sockRecv c (min (size - recd) 2048) with
      | .error e => .error e
      | .ok (chunk, c') =>
        if chunk.length = 0 then .error (.connectionBroken, c')
        else recvAllGo fuel c' size (recd + chunk.length) (acc ++ chunk)
          (trace ++ [(min (size - recd) 2048, chunk)])
  else .ok (acc, c, trace)

/-- `recv_all(sock, size)` together with the trace of underlying calls. -/
def recvAllTrace (c : Conn) (size : Nat) :
    Except (Err × Conn) (List Nat × Conn × List (Nat × List Nat)) :=
  recvAllGo size c size 0 [] []

/-- `recv_all(sock, size)`: blockingly receive exactly `size` bytes. -/
def recvAll (c : Conn) (size : Nat) : Except (Err × Conn) (List Nat × Conn) :=
  match recvAllTrace c size with
  | .error e => .error e
  | .ok (bytes, c', _) => .ok (bytes, c')

/-- Digits of `int.to_bytes(n, w, 'big')`, most significant byte first
(total helper; the overflow check lives in `natToBytesBE`). -/
def natToBytesBEAux : Nat → Nat → List Nat
  | _, 0 => []
  | n, w + 1 => natToBytesBEAux (n / 256) w ++ [n % 256]

/-- `n.to_bytes(w, 'big')`: fails with `OverflowError` (mapped to
`messageTooLarge`, the spec's name for this failure of `send`) when `n`
does not fit in `w` bytes. -/
def natToBytesBE (n w : Nat) : Except Err (List Nat) :=
  if n < 256 ^ w then .ok (natToBytesBEAux n w) else .error .messageTooLarge

/-- `int.from_bytes(bs, 'big')`. -/
def natFromBytesBE (bs : List Nat) : Nat :=
  bs.foldl (fun acc b => acc * 256 + b) 0

/-- Modelled from the spec's words (§4.2): the big-endian unsigned encoding
of `n` occupying exactly `w` bytes, most significant byte first.  Used only
to compare the code's `to_bytes` encoding against the spec's description. -/
def specBigEndian (n w : Nat) : List Nat :=
  (List.range w).map (fun i => n / 256 ^ (w - 1 - i) % 256)

/-- The buffer a framed `send` hands to `send_all` in its single call
(tcp_blocking.py lines 70-71 and 127-128): the `prefix_size`-byte
big-endian length, immediately followed by the payload. -/
def sendFrame (prefixSize : Nat) (data : List Nat) : Except Err (List Nat) :=
  match natToBytesBE data.length prefixSize with
  | .error e => .error e
  | .ok pre => .ok (pre ++ data)

/-- State of a `TCPServer` instance (tcp_blocking.py lines 53-60).
`bound` is the OS-level fact that `self.sock` has already been bound
(binding a second time raises `OSError`); `lsockClosed` records that the
listening socket was closed; `conn`/`addr` are `None` until `register()`
accepts the first client. -/
structure TCPServer where
  host : String
  port : Nat
  backlog : Nat
  prefixSize : Nat
  bound : Bool
  lsockClosed : Bool
  conn : Option Conn
  addr : Option String
  deriving DecidableEq

/-- Default of the `backlog` keyword argument of `TCPServer.__init__`. -/
def TCPServer.defaultBacklog : Nat := 4

/-- Default of the `prefix_size` keyword argument of `TCPServer.__init__`. -/
def TCPServer.defaultPrefixSize : Nat := 1

/-- `TCPServer(host, port, backlog, prefix_size)`. -/
def TCPServer.init (host : String) (port backlog prefixSize : Nat) : TCPServer :=
  { host := host, port := port, backlog := backlog, prefixSize := prefixSize,
    bound := false, lsockClosed := false, conn := none, addr := none }

/-- `TCPServer(host, port)` with both keyword arguments left to their
defaults. -/
def TCPServer.initDefault (host : String) (port : Nat) : TCPServer :=
  TCPServer.init host port TCPServer.defaultBacklog TCPServer.defaultPrefixSize

/-- `TCPServer.register()` (lines 62-66): bind, listen, accept the first
client.  `bind` on an already-bound socket raises `OSError` (mapped to
`bindError`); `accept` blocks until a peer connects, so the arriving
connection and peer address are parameters of the model. -/
def TCPServer.register (s : TCPServer) (incoming : Conn) (peer : String) :
    Except (Err × TCPServer) TCPServer :=
  if s.bound then .error (.bindError, s)
  else .ok { s with bound := true, conn := some incoming, addr := some peer }

/-- `TCPServer.send(data)` (lines 68-71): build the length prefix (which
raises `OverflowError` first if the length does not fit), then hand
prefix-plus-payload to `send_all` in a single call on `self.conn`. -/
def TCPServer.send (s : TCPServer) (data : List Nat) :
    Except (Err × TCPServer) TCPServer :=
  match sendFrame s.prefixSize data with
  | .error e => .error (e, s)
  | .ok buf =>
    match s.conn with
    | none => .error (.noneConn, s)
    | some c =>
      match sendAll c buf with
      | .error (e, c') => .error (e, { s with conn := some c' })
      | .ok c' => .ok { s with conn := some c' }

/-- `TCPServer.recv()` (lines 73-77): read `prefix_size` bytes, decode them
big-endian, read that many payload bytes and return them verbatim. -/
def TCPServer.recv (s : TCPServer) :
    Except (Err × TCPServer) (List Nat × TCPServer) :=
  match s.conn with
  | none => .error (.noneConn, s)
  | some c =>
    match recvAll c s.prefixSize with
    | .error (e, c') => .error (e, { s with conn := some c' })
    | .ok (rawLen, c') =>
      match recvAll c' (natFromBytesBE rawLen) with
      | .error (e, c'') => .error (e, { s with conn := some c'' })
      | .ok (data, c'') => .ok (data, { s with conn := some c'' })

/-- `TCPServer.close()` (lines 97-101): `if self.conn: self.conn.close()`,
then close the listening socket.  Total: the `None` guard makes the
per-connection close safe to skip. -/
def TCPServer.close (s : TCPServer) : TCPServer :=
  match s.conn with
  | none => { s with lsockClosed := true }
  | some c => { s with conn := some { c with closed := true }, lsockClosed := true }

/-- State of a `TCPClient` instance (tcp_blocking.py lines 115-119); the
model starts from the connected state, so `sock` is the connection. -/
structure TCPClient where
  host : String
  port : Nat
  prefixSize : Nat
  sock : Conn
  deriving DecidableEq

/-- Default of the `prefix_size` keyword argument of `TCPClient.__init__`. -/
def TCPClient.defaultPrefixSize : Nat := 1

/-- `TCPClient.send(data)` (lines 125-128): identical framing to the server
side, over `self.sock`. -/
def TCPClient.send (s : TCPClient) (data : List Nat) :
    Except (Err × TCPClient) TCPClient :=
  match sendFrame s.prefixSize data with
  | .error e => .error (e, s)
  | .ok buf =>
    match sendAll s.sock buf with
    | .error (e, c') => .error (e, { s with sock := c' })
    | .ok c' => .ok { s with sock := c' }

/-- `TCPClient.recv()` (lines 130-134): identical deframing to the server
side, over `self.sock`. -/
def TCPClient.recv (s : TCPClient) :
    Except (Err × TCPClient) (List Nat × TCPClient) :=
  match recvAll s.sock s.prefixSize with
  | .error (e, c') => .error (e, { s with sock := c' })
  | .ok (rawLen, c') =>
    match recvAll c' (natFromBytesBE rawLen) with
    | .error (e, c'') => .error (e, { s with sock := c'' })
    | .ok (data, c'') => .ok (data, { s with sock := c'' })

/-- A fresh cooperative connection: no pending input, transport accepts
every byte offered. -/
def connFresh : Conn :=
  { rx := [], frag := [], txAccept := [], tx := [], closed := false }

/-- A connection that will deliver exactly the frame `05 01 02 03 04 05`
and then see the peer close. -/
def connWire : Conn :=
  { rx := [5, 1, 2, 3, 4, 5], frag := [], txAccept := [], tx := [], closed := false }

/-- A connection that will deliver exactly one prefix byte `02` (decoding
to length 2) and then see the peer close. -/
def connHalf : Conn :=
  { rx := [2], frag := [], txAccept := [], tx := [], closed := false }

/-- A connection whose transport reports zero bytes accepted on the first
write. -/
def connStuck : Conn :=
  { rx := [], frag := [], txAccept := [0], tx := [], closed := false }

/-- A connected server with prefix width 1 over `connWire`. -/
def srvWire : TCPServer :=
  { host := "127.0.0.1", port := 50007, backlog := 4, prefixSize := 1,
    bound := true, lsockClosed := false, conn := some connWire, addr := some "peer" }

/-- A connected server with prefix width 1 over `connHalf`. -/
def srvHalf : TCPServer :=
  { srvWire with conn := some connHalf }

/-- A connected server with prefix width 1 over `connFresh`. -/
def srvFresh : TCPServer :=
  { srvWire with conn := some connFresh }

/-- A connected client with prefix width 1 over `connFresh`. -/
def clFresh : TCPClient :=
  { host := "127.0.0.1", port := 50007, prefixSize := 1, sock := connFresh }

/-- A connected client with prefix width 1 over `connWire`. -/
def clWire : TCPClient :=
  { clFresh with sock := connWire }

/-- Well-formedness of a `recv_all` call trace against `rem` bytes still
missing: each underlying call requested exactly `min(rem, 2048)` bytes and
delivered a nonempty chunk of at most that many bytes. -/
def goodTr : Nat → List (Nat × List Nat) → Prop
  | _, [] => True
  | rem, (k, d) :: t =>
    k = min rem 2048 ∧ 1 ≤ d.length ∧ d.length ≤ k ∧ goodTr (rem - d.length) t

/-- The length prefix occupies exactly `w` bytes. -/
theorem natToBytesBEAux_length (n w : Nat) : (natToBytesBEAux n w).length = w := by
  induction w generalizing n with
  | zero => rfl
  | succ w ih => simp [natToBytesBEAux, ih]

theorem natFromBytesBE_append_one (xs : List Nat) (b : Nat) :
    natFromBytesBE (xs ++ [b]) = natFromBytesBE xs * 256 + b := by
  simp [natFromBytesBE, List.foldl_append]

/-- Decoding inverts encoding for every length that fits in the prefix. -/
theorem natFromBytesBE_toBytes (n w : Nat) (h : n < 256 ^ w) :
    natFromBytesBE (natToBytesBEAux n w) = n := by
  induction w generalizing n with
  | zero =>
    simp [Nat.pow_zero] at h
    simp [natToBytesBEAux, natFromBytesBE, h]
  | succ w ih =>
    have hdiv : n / 256 < 256 ^ w := by
      rw [Nat.div_lt_iff_lt_mul (by norm_num : 0 < 256)]
      calc n < 256 ^ (w + 1) := h
        _ = 256 ^ w * 256 := by rw [Nat.pow_succ]
    rw [natToBytesBEAux, natFromBytesBE_append_one, ih _ hdiv]
    omega

/-- Every byte of the prefix is an actual byte value. -/
theorem natToBytesBEAux_lt (n w : Nat) :
    ∀ b ∈ natToBytesBEAux n w, b < 256 := by
  induction w generalizing n with
  | zero => intro b hb; simp [natToBytesBEAux] at hb
  | succ w ih =>
    intro b hb
    rw [natToBytesBEAux] at hb
    rcases List.mem_append.mp hb with h | h
    · exact ih _ b h
    · simp at h; omega

/-- The code's `to_bytes` encoding agrees with the spec's description of a
big-endian unsigned encoding occupying exactly `w` bytes. -/
theorem natToBytesBEAux_eq_spec (n w : Nat) :
    natToBytesBEAux n w = specBigEndian n w := by
  induction w generalizing n with
  | zero => rfl
  | succ w ih =>
    rw [natToBytesBEAux, ih, specBigEndian, specBigEndian, List.range_succ,
      List.map_append]
    congr 1
    · apply List.map_congr_left
      intro i hi
      have hi' : i < w := List.mem_range.mp hi
      have hw : w + 1 - 1 - i = (w - 1 - i) + 1 := by omega
      rw [hw, Nat.pow_succ, Nat.div_div_eq_div_mul]
      congr 1
      rw [Nat.mul_comm]
    · simp

/-- On success, `send_all`'s loop has handed the transport exactly the
remaining suffix of `data`, in order. -/
theorem sendAllGo_ok_tx (fuel : Nat) :
    ∀ (c : Conn) (data : List Nat) (t : Nat) (c' : Conn),
      sendAllGo fuel c data t = .ok c' → c'.tx = c.tx ++ data.drop t := by
  induction fuel with
  | zero =>
    intro c data t c' h
    rw [sendAllGo] at h
    split at h
    · exact absurd h (by simp)
    · rename_i ht
      injection h with h
      subst h
      rw [List.drop_eq_nil_of_le (Nat.le_of_not_lt ht), List.append_nil]
  | succ fuel ih =>
    intro c data t c' h
    rw [sendAllGo] at h
    split at h
    · rename_i ht
      split at h
      · exact absurd h (by simp)
      · rename_i sent c1 heq
        split at h
        · exact absurd h (by simp)
        · rename_i hsent
          have htx := ih _ data _ _ h
          rw [sockSend] at heq
          split at heq
          · exact absurd heq (by simp)
          · simp only [Except.ok.injEq, Prod.mk.injEq] at heq
            obtain ⟨hsent_eq, hc1⟩ := heq
            rw [← hc1] at htx
            simp only at htx
            rw [hsent_eq] at htx
            rw [htx, List.append_assoc]
            congr 1
            rw [← List.drop_drop]
            exact List.take_append_drop _ _
    · injection h with h
      subst h
      rw [List.drop_eq_nil_of_le (Nat.le_of_not_lt (by assumption)), List.append_nil]

/-- On success, `send_all` has handed the transport exactly `data`. -/
theorem sendAll_ok_tx (c : Conn) (data : List Nat) (c' : Conn)
    (h : sendAll c data = .ok c') : c'.tx = c.tx ++ data := by
  have := sendAllGo_ok_tx data.length c data 0 c' h
  simpa using this


/-- With a transport that accepts everything offered, `send_all` succeeds
in one underlying call and the stream grows by exactly `data`. -/
theorem sendAll_coop (c : Conn) (data : List Nat)
    (hcl : c.closed = false) (hacc : c.txAccept = []) :
    sendAll c data = .ok { c with tx := c.tx ++ data } := by
  obtain ⟨rx, frag, txA, tx, closed⟩ := c
  simp only at hcl hacc
  subst hacc hcl
  cases data with
  | nil => simp [sendAll, sendAllGo]
  | cons b bs =>
    rw [sendAll]
    rw [sendAllGo.eq_def]
    simp only [List.length_cons, List.drop_zero, Nat.zero_lt_succ, if_true]
    rw [sockSend]
    simp only [Bool.false_eq_true, if_false, List.length_cons, List.tail_nil]
    rw [if_neg (Nat.succ_ne_zero _)]
    rw [sendAllGo.eq_def]
    simp only [List.length_cons]
    rw [if_neg (by omega)]
    simp

/-- The moment an underlying write reports zero bytes accepted, `send_all`
fails with the connection-broken error and nothing has reached the
transport. -/
theorem sendAll_firstZero (c : Conn) (data : List Nat)
    (hcl : c.closed = false) (hacc : c.txAccept.head? = some 0) (hd : data ≠ []) :
    ∃ c', sendAll c data = .error (.connectionBroken, c') ∧ c'.tx = c.tx := by
  obtain ⟨rx, frag, txA, tx, closed⟩ := c
  simp only at hcl hacc
  subst hcl
  cases txA with
  | nil => simp at hacc
  | cons a txA =>
    simp only [List.head?] at hacc
    injection hacc with hacc
    subst hacc
    cases data with
    | nil => exact absurd rfl hd
    | cons b bs =>
      rw [sendAll, sendAllGo.eq_def]
      simp only [List.length_cons, List.drop_zero, Nat.zero_lt_succ, if_true]
      rw [sockSend]
      simp only [Bool.false_eq_true, if_false, List.length_cons, List.tail_cons]
      rw [if_pos (by simp)]
      exact ⟨_, rfl, by simp⟩

/-- `send_all` on a locally closed socket fails at the first underlying
write (the OS rejects the descriptor). -/
theorem sendAll_closed (c : Conn) (data : List Nat)
    (hcl : c.closed = true) (hd : data ≠ []) :
    sendAll c data = .error (.channelClosed, c) := by
  cases data with
  | nil => exact absurd rfl hd
  | cons b bs =>
    rw [sendAll, sendAllGo.eq_def]
    simp only [List.length_cons, Nat.zero_lt_succ, if_true]
    rw [sockSend, if_pos hcl]

/-- An underlying `recv` call never delivers more than requested. -/
theorem sockAmt_le (c : Conn) (k : Nat) : sockAmt c k ≤ k :=
  Nat.min_le_left _ _

/-- A nonzero request takes at least one byte while data remains. -/
theorem sockAmt_pos (c : Conn) (k : Nat) (hk : 1 ≤ k) : 1 ≤ sockAmt c k := by
  rw [sockAmt]
  cases c.frag with
  | nil => simpa using hk
  | cons f t => simp [hk, Nat.le_max_right]

/-- `sock.recv` on an open socket delivers the next `sockAmt` bytes. -/
theorem sockRecv_not_closed (c : Conn) (k : Nat) (h : c.closed = false) :
    sockRecv c k = .ok (c.rx.take (sockAmt c k),
      { c with rx := c.rx.drop (sockAmt c k), frag := c.frag.tail }) := by
  rw [sockRecv, if_neg (by simp [h])]

/-- `sock.recv` on a locally closed socket fails at the OS level. -/
theorem sockRecv_closed (c : Conn) (k : Nat) (h : c.closed = true) :
    sockRecv c k = .error (.channelClosed, c) := by
  rw [sockRecv, if_pos h]

/-- Characterization of a successful `sock.recv` call. -/
theorem sockRecv_ok (c : Conn) (k : Nat) (chunk : List Nat) (c1 : Conn)
    (h : sockRecv c k = .ok (chunk, c1)) :
    chunk = c.rx.take (sockAmt c k) ∧
      c1 = { c with rx := c.rx.drop (sockAmt c k), frag := c.frag.tail } ∧
      c.closed = false := by
  rw [sockRecv] at h
  split at h
  · exact absurd h (by simp)
  · rename_i hncl
    simp only [Except.ok.injEq, Prod.mk.injEq] at h
    exact ⟨h.1.symm, h.2.symm, by simpa using hncl⟩

/-- Characterization of a successful run of `recv_all`'s loop: the bytes
returned are the next `size - recd` bytes of the stream (which must all be
available), they are exactly the concatenation of the traced chunks in
arrival order, the connection is only advanced, and the call trace is
well-formed. -/
theorem recvAllGo_ok (fuel : Nat) :
    ∀ (c : Conn) (size recd : Nat) (acc : List Nat)
      (trace : List (Nat × List Nat)) (bytes : List Nat) (c' : Conn)
      (tr : List (Nat × List Nat)),
      recvAllGo fuel c size recd acc trace = .ok (bytes, c', tr) →
      ∃ tr', tr = trace ++ tr' ∧
        (tr'.map Prod.snd).flatten = c.rx.take (size - recd) ∧
        bytes = acc ++ c.rx.take (size - recd) ∧
        size - recd ≤ c.rx.length ∧
        c'.rx = c.rx.drop (size - recd) ∧
        c'.closed = c.closed ∧ c'.tx = c.tx ∧ c'.txAccept = c.txAccept ∧
        goodTr (size - recd) tr' := by
  induction fuel with
  | zero =>
    intro c size recd acc trace bytes c' tr h
    rw [recvAllGo] at h
    split at h
    · exact absurd h (by simp)
    · rename_i hlt
      simp only [Except.ok.injEq, Prod.mk.injEq] at h
      obtain ⟨h1, h2, h3⟩ := h
      have h0 : size - recd = 0 := by omega
      subst h1 h2 h3
      exact ⟨[], by simp, by simp [h0], by simp [h0], by simp [h0],
        by simp [h0], rfl, rfl, rfl, trivial⟩
  | succ fuel ih =>
    intro c size recd acc trace bytes c' tr h
    rw [recvAllGo] at h
    split at h
    · rename_i hlt
      split at h
      · exact absurd h (by simp)
      · rename_i chunk c1 heq
        split at h
        · exact absurd h (by simp)
        · rename_i hchunk
          obtain ⟨tr1, htr, hjoin, hbytes, hlen, hrx, hcl2, htx2, hta2, hgood⟩ :=
            ih _ _ _ _ _ _ _ _ h
          obtain ⟨hchunk_eq, hc1, hccl⟩ := sockRecv_ok _ _ _ _ heq
          subst hchunk_eq hc1
          simp only [List.length_take, List.length_drop] at *
          -- abbreviations
          have hkle : sockAmt c (min (size - recd) 2048) ≤ size - recd :=
            Nat.le_trans (sockAmt_le _ _) (Nat.min_le_left _ _)
          have hd : min (sockAmt c (min (size - recd) 2048)) c.rx.length
              = sockAmt c (min (size - recd) 2048) := by
            rcases Nat.le_total (sockAmt c (min (size - recd) 2048)) c.rx.length with hle | hle
            · exact Nat.min_eq_left hle
            · -- rx exhausted mid-loop: success later forces a contradiction
              have hd0 : min (sockAmt c (min (size - recd) 2048)) c.rx.length
                  = c.rx.length := Nat.min_eq_right hle
              rw [hd0] at hlen hchunk
              omega
          rw [hd] at hjoin hbytes hlen hrx hchunk hgood
          set amt := sockAmt c (min (size - recd) 2048) with hamt
          have hsub : size - (recd + amt) = size - recd - amt := by omega
          rw [hsub] at hjoin hbytes hlen hrx hgood
          have hk2 : amt ≤ min (size - recd) 2048 := sockAmt_le _ _
          have htake : List.take amt c.rx ++ (c.rx.drop amt).take (size - recd - amt)
              = c.rx.take (size - recd) := by
            rw [← List.take_add]
            congr 1
            omega
          refine ⟨(min (size - recd) 2048, c.rx.take amt) :: tr1, ?_, ?_, ?_, ?_, ?_, ?_, ?_, ?_, ?_⟩
          · rw [htr]; simp
          · simp only [List.map_cons, List.flatten_cons, hjoin]
            exact htake
          · rw [hbytes, List.append_assoc]
            congr 1
          · omega
          · rw [hrx, List.drop_drop]
            congr 1
            omega
          · rw [hcl2]
          · rw [htx2]
          · rw [hta2]
          · refine ⟨rfl, ?_, ?_, ?_⟩
            · rw [List.length_take, hd]; omega
            · rw [List.length_take, hd]; exact hk2
            · rw [List.length_take, hd]; exact hgood
    · rename_i hlt
      simp only [Except.ok.injEq, Prod.mk.injEq] at h
      obtain ⟨h1, h2, h3⟩ := h
      have h0 : size - recd = 0 := by omega
      subst h1 h2 h3
      exact ⟨[], by simp, by simp [h0], by simp [h0], by simp [h0],
        by simp [h0], rfl, rfl, rfl, trivial⟩

/-- When the peer will deliver at least the missing number of bytes,
`recv_all`'s loop succeeds and returns exactly those bytes. -/
theorem recvAllGo_enough (fuel : Nat) :
    ∀ (c : Conn) (size recd : Nat) (acc : List Nat)
      (trace : List (Nat × List Nat)),
      c.closed = false → size - recd ≤ c.rx.length → size - recd ≤ fuel →
      ∃ c' tr', recvAllGo fuel c size recd acc trace =
          .ok (acc ++ c.rx.take (size - recd), c', trace ++ tr') ∧
        c'.rx = c.rx.drop (size - recd) ∧ c'.closed = false ∧
        c'.tx = c.tx ∧ c'.txAccept = c.txAccept := by
  induction fuel with
  | zero =>
    intro c size recd acc trace hcl hrx hf
    rw [recvAllGo, if_neg (by omega)]
    have h0 : size - recd = 0 := by omega
    exact ⟨c, [], by simp [h0], by simp [h0], hcl, rfl, rfl⟩
  | succ fuel ih =>
    intro c size recd acc trace hcl hrx hf
    by_cases hlt : recd < size
    · have hk1 : 1 ≤ min (size - recd) 2048 := by omega
      have hamt1 : 1 ≤ sockAmt c (min (size - recd) 2048) := sockAmt_pos _ _ hk1
      have hamtle : sockAmt c (min (size - recd) 2048) ≤ size - recd :=
        Nat.le_trans (sockAmt_le _ _) (Nat.min_le_left _ _)
      have hchunklen : (c.rx.take (sockAmt c (min (size - recd) 2048))).length
          = sockAmt c (min (size - recd) 2048) := by
        rw [List.length_take]; omega
      obtain ⟨c', tr', hrec, hrx', hcl', htx', hta'⟩ :=
        ih { c with rx := c.rx.drop (sockAmt c (min (size - recd) 2048)), frag := c.frag.tail }
          size (recd + (c.rx.take (sockAmt c (min (size - recd) 2048))).length)
          (acc ++ c.rx.take (sockAmt c (min (size - recd) 2048)))
          (trace ++ [(min (size - recd) 2048,
            c.rx.take (sockAmt c (min (size - recd) 2048)))])
          (by simpa using hcl)
          (by simp only [hchunklen, List.length_drop]; omega)
          (by rw [hchunklen]; omega)
      have hsub : size - (recd + sockAmt c (min (size - recd) 2048))
          = size - recd - sockAmt c (min (size - recd) 2048) := by omega
      have htake : List.take (sockAmt c (min (size - recd) 2048)) c.rx ++
            (c.rx.drop (sockAmt c (min (size - recd) 2048))).take
              (size - recd - sockAmt c (min (size - recd) 2048))
          = c.rx.take (size - recd) := by
        rw [← List.take_add]
        congr 1
        omega
      refine ⟨c', (min (size - recd) 2048,
          c.rx.take (sockAmt c (min (size - recd) 2048))) :: tr', ?_, ?_, hcl', htx', hta'⟩
      · rw [recvAllGo, if_pos hlt, sockRecv_not_closed c _ hcl]
        change (if (List.take (sockAmt c (min (size - recd) 2048)) c.rx).length = 0
          then _ else _) = _
        rw [if_neg (by rw [hchunklen]; omega)]
        rw [hrec]
        simp only [hchunklen, hsub, List.append_assoc, List.singleton_append, htake]
      · simp only [hchunklen, hsub] at hrx'
        rw [hrx', List.drop_drop]
        congr 1
        omega
    · rw [recvAllGo, if_neg hlt]
      have h0 : size - recd = 0 := by omega
      exact ⟨c, [], by simp [h0], by simp [h0], hcl, rfl, rfl⟩

/-- When the peer closes the stream before the missing bytes arrive,
`recv_all`'s loop raises the connection-broken error instead of returning
a short buffer. -/
theorem recvAllGo_eof (fuel : Nat) :
    ∀ (c : Conn) (size recd : Nat) (acc : List Nat)
      (trace : List (Nat × List Nat)),
      c.closed = false → c.rx.length < size - recd → size - recd ≤ fuel →
      ∃ c', recvAllGo fuel c size recd acc trace = .error (.connectionBroken, c') := by
  induction fuel with
  | zero =>
    intro c size recd acc trace hcl hrx hf
    exact absurd hrx (by omega)
  | succ fuel ih =>
    intro c size recd acc trace hcl hrx hf
    have hlt : recd < size := by omega
    by_cases hrx0 : c.rx = []
    · refine ⟨{ c with rx := c.rx.drop (sockAmt c (min (size - recd) 2048)), frag := c.frag.tail }, ?_⟩
      rw [recvAllGo, if_pos hlt, sockRecv_not_closed c _ hcl]
      change (if (List.take (sockAmt c (min (size - recd) 2048)) c.rx).length = 0
        then _ else _) = _
      rw [if_pos (by simp [hrx0])]
    · have hrxlen : 1 ≤ c.rx.length := List.length_pos.mpr hrx0
      have hamt1 : 1 ≤ sockAmt c (min (size - recd) 2048) :=
        sockAmt_pos _ _ (by omega)
      obtain ⟨c', hrec⟩ :=
        ih { c with rx := c.rx.drop (sockAmt c (min (size - recd) 2048)), frag := c.frag.tail }
          size (recd + (c.rx.take (sockAmt c (min (size - recd) 2048))).length)
          (acc ++ c.rx.take (sockAmt c (min (size - recd) 2048)))
          (trace ++ [(min (size - recd) 2048,
            c.rx.take (sockAmt c (min (size - recd) 2048)))])
          (by simpa using hcl)
          (by simp only [List.length_drop, List.length_take]; omega)
          (by simp only [List.length_take]; omega)
      refine ⟨c', ?_⟩
      rw [recvAllGo, if_pos hlt, sockRecv_not_closed c _ hcl]
      change (if (List.take (sockAmt c (min (size - recd) 2048)) c.rx).length = 0
        then _ else _) = _
      rw [if_neg (by simp only [List.length_take]; omega)]
      exact hrec

/-- `recv_all` on a locally closed socket fails at its first underlying
read. -/
theorem recvAllGo_closed (fuel : Nat) (c : Conn) (size recd : Nat)
    (acc : List Nat) (trace : List (Nat × List Nat))
    (hcl : c.closed = true) (h : recd < size) (hf : 1 ≤ fuel) :
    recvAllGo fuel c size recd acc trace = .error (.channelClosed, c) := by
  cases fuel with
  | zero => omega
  | succ fuel =>
    rw [recvAllGo, if_pos h, sockRecv_closed c _ hcl]

/-- From trace well-formedness: every underlying call requested at most
2048 bytes and at most the number of bytes still missing at that point. -/
theorem goodTr_bound :
    ∀ (pre : List (Nat × List Nat)) (rem k : Nat) (d : List Nat)
      (post : List (Nat × List Nat)),
      goodTr rem (pre ++ (k, d) :: post) →
      k ≤ 2048 ∧ k ≤ rem - ((pre.map Prod.snd).flatten).length := by
  intro pre
  induction pre with
  | nil =>
    intro rem k d post h
    obtain ⟨hk, -, -, -⟩ := h
    subst hk
    refine ⟨Nat.min_le_right _ _, ?_⟩
    simp only [List.map_nil, List.flatten_nil, List.length_nil, Nat.sub_zero]
    exact Nat.min_le_left _ _
  | cons p pre ih =>
    intro rem k d post h
    obtain ⟨k0, d0⟩ := p
    obtain ⟨-, -, -, h3⟩ := h
    have := ih _ k d post h3
    refine ⟨this.1, ?_⟩
    simp only [List.map_cons, List.flatten_cons, List.length_append]
    omega

/-- A successful `recv_all(sock, size)` returns exactly the next `size`
bytes of the stream, never a shorter buffer. -/
theorem recvAll_ok (c : Conn) (size : Nat) (bytes : List Nat) (c' : Conn)
    (h : recvAll c size = .ok (bytes, c')) :
    bytes = c.rx.take size ∧ bytes.length = size ∧ size ≤ c.rx.length ∧
      c'.rx = c.rx.drop size ∧ c'.closed = c.closed ∧ c'.tx = c.tx ∧
      c'.txAccept = c.txAccept := by
  rw [recvAll] at h
  cases htr : recvAllTrace c size with
  | error e => rw [htr] at h; exact absurd h (by simp)
  | ok v =>
    obtain ⟨b, c1, tr⟩ := v
    rw [htr] at h
    simp only [Except.ok.injEq, Prod.mk.injEq] at h
    obtain ⟨hb, hc1⟩ := h
    subst hb hc1
    obtain ⟨tr', -, -, hbytes, hlen, hrx, hcl, htx, hta, -⟩ :=
      recvAllGo_ok size c size 0 [] [] _ _ _ htr
    simp only [Nat.sub_zero, List.nil_append] at hbytes hlen hrx
    subst hbytes
    refine ⟨rfl, ?_, by omega, hrx, hcl, htx, hta⟩
    rw [List.length_take]
    omega

/-- `recv_all` succeeds whenever the peer will deliver enough bytes. -/
theorem recvAll_enough (c : Conn) (size : Nat) (hcl : c.closed = false)
    (hlen : size ≤ c.rx.length) :
    ∃ c', recvAll c size = .ok (c.rx.take size, c') ∧
      c'.rx = c.rx.drop size ∧ c'.closed = false ∧ c'.tx = c.tx ∧
      c'.txAccept = c.txAccept := by
  obtain ⟨c', tr', hrec, h1, h2, h3, h4⟩ :=
    recvAllGo_enough size c size 0 [] [] hcl (by omega) (by omega)
  refine ⟨c', ?_, by simpa using h1, h2, h3, h4⟩
  rw [recvAll, recvAllTrace, hrec]
  simp

/-- `recv_all` fails with the connection-broken error when the peer closes
the stream early. -/
theorem recvAll_eof (c : Conn) (size : Nat) (hcl : c.closed = false)
    (hlen : c.rx.length < size) :
    ∃ c', recvAll c size = .error (.connectionBroken, c') := by
  obtain ⟨c', hrec⟩ := recvAllGo_eof size c size 0 [] [] hcl (by omega) (by omega)
  exact ⟨c', by rw [recvAll, recvAllTrace, hrec]⟩

/-- `recv_all` of at least one byte on a locally closed socket fails. -/
theorem recvAll_closed (c : Conn) (size : Nat) (hcl : c.closed = true)
    (hs : 1 ≤ size) :
    recvAll c size = .error (.channelClosed, c) := by
  rw [recvAll, recvAllTrace,
    recvAllGo_closed size c size 0 [] [] hcl (by omega) (by omega)]

/-- C10: calling `TCPServer.close()` when no connection has ever been
accepted (`self.conn` is still `None`) does not raise: the `if self.conn`
guard skips the per-connection close and only the listening socket is
closed; every other field, including `conn = None`, is unchanged. -/
theorem c10_close_without_conn (s : TCPServer) (h : s.conn = none) :
    TCPServer.close s = { s with lsockClosed := true } := by
  rw [TCPServer.close, h]

/-- Witness for C10 on a freshly constructed server. -/
theorem c10_witness :
    TCPServer.close (TCPServer.initDefault "127.0.0.1" 50007) =
      { TCPServer.initDefault "127.0.0.1" 50007 with lsockClosed := true } :=
  c10_close_without_conn (TCPServer.initDefault "127.0.0.1" 50007) rfl

/-- C7 counterexample: the claim says `prefix_width` defaults to 4 in one
endpoint type and to 1 in the other; in the code both `TCPServer.__init__`
and `TCPClient.__init__` default `prefix_size` to 1 (the module docstring's
"default 4 bytes" matches neither constructor). -/
theorem c7_counterexample :
    TCPServer.defaultPrefixSize = 1 ∧ TCPClient.defaultPrefixSize = 1 ∧
    ¬ ((TCPServer.defaultPrefixSize = 4 ∧ TCPClient.defaultPrefixSize = 1) ∨
       (TCPServer.defaultPrefixSize = 1 ∧ TCPClient.defaultPrefixSize = 4)) := by
  refine ⟨rfl, rfl, ?_⟩
  decide

/-- C7 (amended): when `prefix_width` is not supplied at construction it
defaults to 1 in both endpoint types (`TCPServer` and `TCPClient`). -/
theorem c7_default_prefix_width :
    TCPServer.defaultPrefixSize = 1 ∧ TCPClient.defaultPrefixSize = 1 ∧
    (TCPServer.initDefault "127.0.0.1" 50007).prefixSize = 1 :=
  ⟨rfl, rfl, rfl⟩

/-- C2: for every message with `length(m) >= 256 ^ prefix_width`, `send`
fails with `MessageTooLarge` (Python's `OverflowError` from `int.to_bytes`,
raised while building the prefix) and performs zero writes: the returned
state is the unchanged input state, so the byte stream is untouched — on
both endpoint types. -/
theorem c2_send_too_large (srv : TCPServer) (cl : TCPClient) (m : List Nat)
    (hs : 256 ^ srv.prefixSize ≤ m.length) (hc : 256 ^ cl.prefixSize ≤ m.length) :
    TCPServer.send srv m = .error (.messageTooLarge, srv) ∧
    TCPClient.send cl m = .error (.messageTooLarge, cl) := by
  constructor
  · rw [TCPServer.send, sendFrame, natToBytesBE, if_neg (by omega)]
  · rw [TCPClient.send, sendFrame, natToBytesBE, if_neg (by omega)]

set_option maxRecDepth 4096 in
/-- Witness for C2: a 256-byte message with a 1-byte prefix. -/
theorem c2_witness :
    TCPServer.send srvFresh (List.replicate 256 0) =
      .error (.messageTooLarge, srvFresh) ∧
    TCPClient.send clFresh (List.replicate 256 0) =
      .error (.messageTooLarge, clFresh) :=
  c2_send_too_large srvFresh clFresh (List.replicate 256 0) (by decide) (by decide)

/-- C5: `write_all` (`send_all`) returns successfully only when every byte
of the buffer has been accepted by the transport (the stream grows by
exactly the buffer), and as soon as an underlying write reports zero bytes
accepted before the buffer is done it fails with `ConnectionBroken`, with
nothing further added to the stream. -/
theorem c5_write_all (c : Conn) (data : List Nat) :
    (∀ c', sendAll c data = .ok c' → c'.tx = c.tx ++ data) ∧
    (c.closed = false → c.txAccept.head? = some 0 → data ≠ [] →
      ∃ c', sendAll c data = .error (.connectionBroken, c') ∧ c'.tx = c.tx) :=
  ⟨fun c' h => sendAll_ok_tx c data c' h,
   fun h1 h2 h3 => sendAll_firstZero c data h1 h2 h3⟩

/-- Witness for C5: a cooperative transport accepts `[1, 2]` whole; a
transport whose first write accepts zero bytes breaks the connection. -/
theorem c5_witness :
    ({ connFresh with tx := [1, 2] } : Conn).tx = connFresh.tx ++ [1, 2] ∧
    ∃ c', sendAll connStuck [1, 2] = .error (.connectionBroken, c') ∧
      c'.tx = connStuck.tx :=
  ⟨(c5_write_all connFresh [1, 2]).1 { connFresh with tx := [1, 2] } rfl,
   (c5_write_all connStuck [1, 2]).2 rfl rfl (by decide)⟩

/-- C9: after a listener's first successful `register()` (bind, listen,
accept), no second peer is ever served through the same instance: any
later `register()` fails with the bind error (the socket is already
bound) and returns the state unchanged, so the accepted connection field
still holds the first peer and is never rerouted. -/
theorem c9_single_accept (s s' : TCPServer) (inc : Conn) (peer : String)
    (h : TCPServer.register s inc peer = .ok s') :
    s'.conn = some inc ∧
    ∀ inc2 peer2, TCPServer.register s' inc2 peer2 = .error (.bindError, s') := by
  rw [TCPServer.register] at h
  split at h
  · exact absurd h (by simp)
  · injection h with h
    subst h
    exact ⟨rfl, fun inc2 peer2 => by rw [TCPServer.register, if_pos rfl]⟩

/-- Witness for C9 on a concrete first registration. -/
theorem c9_witness :
    ({ TCPServer.init "127.0.0.1" 50007 4 1 with
        bound := true, conn := some connFresh, addr := some "peer" } : TCPServer).conn =
      some connFresh ∧
    ∀ inc2 peer2,
      TCPServer.register { TCPServer.init "127.0.0.1" 50007 4 1 with
        bound := true, conn := some connFresh, addr := some "peer" } inc2 peer2 =
        .error (.bindError, { TCPServer.init "127.0.0.1" 50007 4 1 with
          bound := true, conn := some connFresh, addr := some "peer" }) :=
  c9_single_accept (TCPServer.init "127.0.0.1" 50007 4 1) _ connFresh "peer" rfl

/-- C6: for every message whose length fits the prefix, the buffer that
`send` passes to `write_all` in its single call is exactly the big-endian
unsigned encoding of `length(m)` occupying exactly `prefix_width` bytes
(the spec-side description: correct width, byte values, decoding back to
the length) immediately followed by `m`; concretely with width 1 and
`m = [1,2,3,4,5]` the emitted buffer is `05 01 02 03 04 05`. -/
theorem c6_frame_layout (W : Nat) (m : List Nat) (hm : m.length < 256 ^ W) :
    sendFrame W m = .ok (specBigEndian m.length W ++ m) ∧
    (specBigEndian m.length W).length = W ∧
    natFromBytesBE (specBigEndian m.length W) = m.length ∧
    (∀ b ∈ specBigEndian m.length W, b < 256) ∧
    sendFrame 1 [1, 2, 3, 4, 5] = .ok [5, 1, 2, 3, 4, 5] := by
  refine ⟨?_, ?_, ?_, ?_, rfl⟩
  · rw [sendFrame, natToBytesBE, if_pos hm, natToBytesBEAux_eq_spec]
  · rw [← natToBytesBEAux_eq_spec, natToBytesBEAux_length]
  · rw [← natToBytesBEAux_eq_spec, natFromBytesBE_toBytes _ _ hm]
  · rw [← natToBytesBEAux_eq_spec]
    exact natToBytesBEAux_lt _ _

/-- Witness for C6 at the spec's concrete scenario. -/
theorem c6_witness :
    sendFrame 1 [1, 2, 3, 4, 5] =
      .ok (specBigEndian (List.length [1, 2, 3, 4, 5]) 1 ++ [1, 2, 3, 4, 5]) ∧
    (specBigEndian (List.length [1, 2, 3, 4, 5]) 1).length = 1 ∧
    natFromBytesBE (specBigEndian (List.length [1, 2, 3, 4, 5]) 1) =
      List.length [1, 2, 3, 4, 5] ∧
    (∀ b ∈ specBigEndian (List.length [1, 2, 3, 4, 5]) 1, b < 256) ∧
    sendFrame 1 [1, 2, 3, 4, 5] = .ok [5, 1, 2, 3, 4, 5] :=
  c6_frame_layout 1 [1, 2, 3, 4, 5] (by decide)

/-- C3: a successful `read_exact` (`recv_all`) returns the exact
concatenation, in arrival order, of the chunks obtained from the
underlying read calls, totalling exactly `n` bytes, and every underlying
call requested at most 2048 bytes and at most the number of bytes still
missing at the time of the call. -/
theorem c3_read_exact (c : Conn) (n : Nat) (bytes : List Nat) (c' : Conn)
    (tr : List (Nat × List Nat))
    (h : recvAllTrace c n = .ok (bytes, c', tr)) :
    bytes = (tr.map Prod.snd).flatten ∧ bytes.length = n ∧
    ∀ pre k d post, tr = pre ++ (k, d) :: post →
      k ≤ 2048 ∧ k ≤ n - ((pre.map Prod.snd).flatten).length := by
  obtain ⟨tr', htr, hjoin, hbytes, hlen, -, -, -, -, hgood⟩ :=
    recvAllGo_ok n c n 0 [] [] bytes c' tr h
  simp only [List.nil_append, Nat.sub_zero] at htr hjoin hbytes hlen
  subst htr
  refine ⟨by rw [hbytes, hjoin], ?_, ?_⟩
  · rw [hbytes, List.length_take]
    omega
  · intro pre k d post hsplit
    exact goodTr_bound pre n k d post (hsplit ▸ hgood)

/-- Witness for C3: reading 3 bytes from a stream that has 6 pending. -/
theorem c3_witness :
    ([5, 1, 2] : List Nat) =
      (([((3 : Nat), ([5, 1, 2] : List Nat))]).map Prod.snd).flatten ∧
    ([5, 1, 2] : List Nat).length = 3 ∧
    ∀ pre k d post,
      [((3 : Nat), ([5, 1, 2] : List Nat))] = pre ++ (k, d) :: post →
      k ≤ 2048 ∧ k ≤ 3 - ((pre.map Prod.snd).flatten).length :=
  c3_read_exact connWire 3 [5, 1, 2]
    { rx := [3, 4, 5], frag := [], txAccept := [], tx := [], closed := false }
    [(3, [5, 1, 2])] rfl

/-- C4: if the peer closes the connection after delivering only the
length prefix (decoding to a nonzero length) and none of the payload,
`recv` fails with `ConnectionBroken`; and in general a successful `recv`
never returns a buffer shorter than the length decoded from the prefix it
read. -/
theorem c4_broken_after_prefix (srv : TCPServer) (c : Conn) (pre : List Nat)
    (hconn : srv.conn = some c) (hcl : c.closed = false)
    (hrx : c.rx = pre) (hlen : pre.length = srv.prefixSize)
    (hn : 0 < natFromBytesBE pre) :
    (∃ srv', TCPServer.recv srv = .error (.connectionBroken, srv')) ∧
    (∀ t tc tdata t', t.conn = some tc → TCPServer.recv t = .ok (tdata, t') →
      tdata.length = natFromBytesBE (tc.rx.take t.prefixSize)) := by
  constructor
  · have hpre : c.rx.take srv.prefixSize = pre := by
      rw [hrx, ← hlen, List.take_length]
    obtain ⟨c1, hget, hrx1, hcl1, -, -⟩ :=
      recvAll_enough c srv.prefixSize hcl (by rw [hrx, hlen])
    have hc1rx : c1.rx = [] := by
      rw [hrx1, hrx, ← hlen, List.drop_length]
    obtain ⟨c2, herr⟩ :=
      recvAll_eof c1 (natFromBytesBE (c.rx.take srv.prefixSize)) hcl1
        (by rw [hc1rx, hpre]; simpa using hn)
    refine ⟨{ srv with conn := some c2 }, ?_⟩
    rw [TCPServer.recv, hconn]
    simp only []
    rw [hget]
    simp only []
    rw [herr]
  · intro t tc tdata t' htc hok
    rw [TCPServer.recv, htc] at hok
    simp only [] at hok
    cases h1 : recvAll tc t.prefixSize with
    | error e => rw [h1] at hok; exact absurd hok (by simp)
    | ok v =>
      obtain ⟨rawLen, c1⟩ := v
      rw [h1] at hok
      simp only [] at hok
      cases h2 : recvAll c1 (natFromBytesBE rawLen) with
      | error e => rw [h2] at hok; exact absurd hok (by simp)
      | ok v2 =>
        obtain ⟨data2, c2⟩ := v2
        rw [h2] at hok
        simp only [] at hok
        simp only [Except.ok.injEq, Prod.mk.injEq] at hok
        obtain ⟨hd, -⟩ := hok
        obtain ⟨hraw, -, -, -, -, -, -⟩ := recvAll_ok tc t.prefixSize rawLen c1 h1
        obtain ⟨-, hlen2, -, -, -, -, -⟩ :=
          recvAll_ok c1 (natFromBytesBE rawLen) data2 c2 h2
        rw [← hd, hlen2, hraw]

/-- Witness for C4: a stream holding only the prefix byte `02`. -/
theorem c4_witness :
    (∃ srv', TCPServer.recv srvHalf = .error (.connectionBroken, srv')) ∧
    (∀ t tc tdata t', t.conn = some tc → TCPServer.recv t = .ok (tdata, t') →
      tdata.length = natFromBytesBE (tc.rx.take t.prefixSize)) :=
  c4_broken_after_prefix srvHalf connHalf [2] rfl rfl rfl rfl (by decide)

set_option maxRecDepth 4096 in
/-- C8 counterexample: on a closed channel, a `send` whose payload length
does not fit the prefix fails with `MessageTooLarge` — Python's
`OverflowError` from `int.to_bytes` is raised while encoding the length,
before the closed socket is ever touched — not with `ChannelClosed` as the
claim requires of every operation on a closed channel. -/
theorem c8_counterexample :
    TCPServer.send (TCPServer.close srvFresh) (List.replicate 256 0) =
      .error (.messageTooLarge, TCPServer.close srvFresh) ∧
    Err.messageTooLarge ≠ Err.channelClosed :=
  ⟨by rw [TCPServer.send, sendFrame, natToBytesBE, if_neg (by decide)],
   by decide⟩

/-- C8 (amended): the channel state machine is `Open → Closed` with
`Closed` terminal: after `close()` the connection is marked closed and the
listening socket closed, every subsequent `receive` fails with
`ChannelClosed`, and every subsequent `send` of a message whose length
fits the prefix fails with `ChannelClosed` (an over-long message instead
fails with `MessageTooLarge`, raised before the socket is touched). -/
theorem c8_closed_channel (srv : TCPServer) (c : Conn) (m : List Nat)
    (hconn : srv.conn = some c) (hW : 1 ≤ srv.prefixSize)
    (hm : m.length < 256 ^ srv.prefixSize) :
    (TCPServer.close srv).conn = some { c with closed := true } ∧
    (TCPServer.close srv).lsockClosed = true ∧
    (∃ s', TCPServer.send (TCPServer.close srv) m = .error (.channelClosed, s')) ∧
    (∃ s', TCPServer.recv (TCPServer.close srv) = .error (.channelClosed, s')) := by
  have hclose : TCPServer.close srv =
      { srv with conn := some { c with closed := true }, lsockClosed := true } := by
    rw [TCPServer.close, hconn]
  have hbuf : (natToBytesBEAux m.length srv.prefixSize ++ m) ≠ [] := by
    intro hnil
    have := natToBytesBEAux_length m.length srv.prefixSize
    rw [List.append_eq_nil] at hnil
    rw [hnil.1] at this
    simp at this
    omega
  rw [hclose]
  refine ⟨rfl, rfl, ?_, ?_⟩
  · refine ⟨{ srv with
        conn := some { c with closed := true }, lsockClosed := true }, ?_⟩
    rw [TCPServer.send, sendFrame, natToBytesBE, if_pos hm]
    simp only []
    rw [sendAll_closed _ _ rfl hbuf]
  · refine ⟨{ srv with
        conn := some { c with closed := true }, lsockClosed := true }, ?_⟩
    rw [TCPServer.recv]
    simp only []
    rw [recvAll_closed _ _ rfl hW]

/-- Witness for C8 on a concrete connected server that is closed. -/
theorem c8_witness :
    (TCPServer.close srvFresh).conn = some { connFresh with closed := true } ∧
    (TCPServer.close srvFresh).lsockClosed = true ∧
    (∃ s', TCPServer.send (TCPServer.close srvFresh) [7] =
      .error (.channelClosed, s')) ∧
    (∃ s', TCPServer.recv (TCPServer.close srvFresh) =
      .error (.channelClosed, s')) :=
  c8_closed_channel srvFresh connFresh [7] rfl (by decide) (by decide)

/-- C1: framed round-trip for any prefix width `W ∈ [1, 8]` and message
`m` with `length(m) < 256 ^ W`.  A `send` over a transport that accepts
the write puts exactly the `W`-byte big-endian length prefix followed by
`m` on the wire (on either endpoint type), and a `receive` over a
connection that carries exactly those wire bytes — under any
fragmentation of the stream, possibly followed by further data — returns
exactly `m`, byte for byte, consuming nothing beyond the frame (on either
endpoint type). -/
theorem c1_roundtrip (W : Nat) (m rest : List Nat)
    (hW1 : 1 ≤ W) (hW8 : W ≤ 8) (hm : m.length < 256 ^ W) :
    (∀ cl : TCPClient, cl.prefixSize = W → cl.sock.closed = false →
      cl.sock.txAccept = [] →
      TCPClient.send cl m = .ok { cl with sock := { cl.sock with
        tx := cl.sock.tx ++ (natToBytesBEAux m.length W ++ m) } }) ∧
    (∀ srv : TCPServer, ∀ c : Conn, srv.prefixSize = W → srv.conn = some c →
      c.closed = false → c.txAccept = [] →
      TCPServer.send srv m = .ok { srv with conn := some { c with
        tx := c.tx ++ (natToBytesBEAux m.length W ++ m) } }) ∧
    (∀ srv : TCPServer, ∀ c : Conn, srv.prefixSize = W → srv.conn = some c →
      c.closed = false → c.rx = natToBytesBEAux m.length W ++ (m ++ rest) →
      ∃ srv' c', TCPServer.recv srv = .ok (m, srv') ∧ srv'.conn = some c' ∧
        c'.rx = rest) ∧
    (∀ cl : TCPClient, cl.prefixSize = W → cl.sock.closed = false →
      cl.sock.rx = natToBytesBEAux m.length W ++ (m ++ rest) →
      ∃ cl', TCPClient.recv cl = .ok (m, cl') ∧ cl'.sock.rx = rest) := by
  have hlenaux : (natToBytesBEAux m.length W).length = W := natToBytesBEAux_length _ _
  have hdec : natFromBytesBE (natToBytesBEAux m.length W) = m.length :=
    natFromBytesBE_toBytes _ _ hm
  refine ⟨?_, ?_, ?_, ?_⟩
  · intro cl hp hcl hacc
    rw [TCPClient.send, hp, sendFrame, natToBytesBE, if_pos hm]
    simp only []
    rw [sendAll_coop _ _ hcl hacc]
  · intro srv c hp hconn hcl hacc
    rw [TCPServer.send, hp, sendFrame, natToBytesBE, if_pos hm]
    simp only []
    rw [hconn]
    simp only []
    rw [sendAll_coop _ _ hcl hacc]
  · intro srv c hp hconn hcl hrx
    have hrxlen : srv.prefixSize ≤ c.rx.length := by
      rw [hp, hrx, List.length_append, hlenaux]
      omega
    obtain ⟨c1, hget, hrx1, hcl1, -, -⟩ := recvAll_enough c srv.prefixSize hcl hrxlen
    have hpre : c.rx.take srv.prefixSize = natToBytesBEAux m.length W := by
      rw [hrx, hp, List.take_left' hlenaux]
    have hc1 : c1.rx = m ++ rest := by
      rw [hrx1, hrx, hp, List.drop_left' hlenaux]
    obtain ⟨c2, hget2, hrx2, -, -, -⟩ := recvAll_enough c1 m.length hcl1
      (by rw [hc1, List.length_append]; omega)
    have htake2 : c1.rx.take m.length = m := by
      rw [hc1, List.take_left' rfl]
    rw [htake2] at hget2
    have hrest : c2.rx = rest := by
      rw [hrx2, hc1, List.drop_left' rfl]
    refine ⟨{ srv with conn := some c2 }, c2, ?_, rfl, hrest⟩
    rw [TCPServer.recv, hconn]
    simp only []
    rw [hget]
    simp only []
    rw [hpre, hdec, hget2]
  · intro cl hp hcl hrx
    have hrxlen : cl.prefixSize ≤ cl.sock.rx.length := by
      rw [hp, hrx, List.length_append, hlenaux]
      omega
    obtain ⟨c1, hget, hrx1, hcl1, -, -⟩ :=
      recvAll_enough cl.sock cl.prefixSize hcl hrxlen
    have hpre : cl.sock.rx.take cl.prefixSize = natToBytesBEAux m.length W := by
      rw [hrx, hp, List.take_left' hlenaux]
    have hc1 : c1.rx = m ++ rest := by
      rw [hrx1, hrx, hp, List.drop_left' hlenaux]
    obtain ⟨c2, hget2, hrx2, -, -, -⟩ := recvAll_enough c1 m.length hcl1
      (by rw [hc1, List.length_append]; omega)
    have htake2 : c1.rx.take m.length = m := by
      rw [hc1, List.take_left' rfl]
    rw [htake2] at hget2
    have hrest : c2.rx = rest := by
      rw [hrx2, hc1, List.drop_left' rfl]
    refine ⟨{ cl with sock := c2 }, ?_, hrest⟩
    rw [TCPClient.recv, hget]
    simp only []
    rw [hpre, hdec, hget2]

/-- Witness for C1 at the spec's concrete scenario: width 1 and message
`[1, 2, 3, 4, 5]` framed as `05 01 02 03 04 05`. -/
theorem c1_witness :
    TCPClient.send clFresh [1, 2, 3, 4, 5] =
      .ok { clFresh with sock := { clFresh.sock with
        tx := clFresh.sock.tx ++
          (natToBytesBEAux (List.length [1, 2, 3, 4, 5]) 1 ++ [1, 2, 3, 4, 5]) } } ∧
    TCPServer.send srvFresh [1, 2, 3, 4, 5] =
      .ok { srvFresh with conn := some { connFresh with
        tx := connFresh.tx ++
          (natToBytesBEAux (List.length [1, 2, 3, 4, 5]) 1 ++ [1, 2, 3, 4, 5]) } } ∧
    (∃ srv' c', TCPServer.recv srvWire = .ok ([1, 2, 3, 4, 5], srv') ∧
      srv'.conn = some c' ∧ c'.rx = []) ∧
    (∃ cl', TCPClient.recv clWire = .ok ([1, 2, 3, 4, 5], cl') ∧
      cl'.sock.rx = []) :=
  ⟨(c1_roundtrip 1 [1, 2, 3, 4, 5] [] (by decide) (by decide) (by decide)).1
      clFresh rfl rfl rfl,
   (c1_roundtrip 1 [1, 2, 3, 4, 5] [] (by decide) (by decide) (by decide)).2.1
      srvFresh connFresh rfl rfl rfl rfl,
   (c1_roundtrip 1 [1, 2, 3, 4, 5] [] (by decide) (by decide) (by decide)).2.2.1
      srvWire connWire rfl rfl rfl (by decide),
   (c1_roundtrip 1 [1, 2, 3, 4, 5] [] (by decide) (by decide) (by decide)).2.2.2
      clWire rfl rfl (by decide)⟩
